import Mathlib

/-!
Verification development for the dual-hash change-detection core of the
AppsScript repository (src/utils.js, src/config.js, src/storage.js).

JavaScript scalar values are modelled by an inductive type of JSON-style
scalars; settings objects, hash maps and ScriptProperties stores are
association lists in insertion order (JavaScript objects cannot hold
duplicate keys, so theorems quantifying over arbitrary objects carry a
Nodup hypothesis on the key list).  The host-platform digest primitives
(Utilities.computeDigest, Utilities.base64Encode), which are not part of
the repository, are modelled by executable deterministic stand-ins; every
theorem below depends only on determinism and output shape of those
primitives, never on cryptographic structure.
-/

namespace AppsScript

/-- A JavaScript scalar value as it appears in a Groups Settings object:
string, number, boolean or null.  Numbers are modelled as integers; the
settings payloads in the source are enum strings, booleans and nulls. -/
inductive JSValue where
  | str : String → JSValue
  | num : Int → JSValue
  | bool : Bool → JSValue
  | null : JSValue
deriving DecidableEq

/-- A JavaScript object, modelled as an association list in insertion order. -/
abbrev JSObject := List (String × JSValue)

/-- Property access o[k]: the value at the first binding of k, with none
modelling undefined (key absent). -/
def jsGet (o : List (String × α)) (k : String) : Option α :=
  (o.find? (fun p => p.1 == k)).map (fun p => p.2)

/-- The keys of an object, in insertion order (Object.keys). -/
def jsKeys (o : List (String × α)) : List String :=
  o.map Prod.fst

/-- Lowercase hexadecimal digit character for n < 16
(as produced by Number.prototype.toString(16)). -/
def hexDigitChar (n : Nat) : Char :=
  if n < 10 then Char.ofNat (48 + n) else Char.ofNat (87 + n)

/-- JSON.stringify escaping of one character inside a string literal:
backslash-escapes for the quote, the backslash and the named control
characters, a \u00XX escape for the remaining control characters, and the
character itself otherwise. -/
def jsonEscapeChar (c : Char) : List Char :=
  if c = '"' then ['\\', '"']
  else if c = '\\' then ['\\', '\\']
  else if c = Char.ofNat 8 then ['\\', 'b']
  else if c = Char.ofNat 12 then ['\\', 'f']
  else if c = '\n' then ['\\', 'n']
  else if c = '\r' then ['\\', 'r']
  else if c = '\t' then ['\\', 't']
  else if c.toNat < 32 then
    ['\\', 'u', '0', '0', hexDigitChar (c.toNat / 16), hexDigitChar (c.toNat % 16)]
  else [c]

/-- JSON.stringify of a string: double quotes around the escaped characters. -/
def jsonQuote (s : String) : List Char :=
  '"' :: (s.data.map jsonEscapeChar).flatten ++ ['"']

/-- The opening brace character of a JSON object. -/
def lbrace : Char := Char.ofNat 123

/-- The closing brace character of a JSON object. -/
def rbrace : Char := Char.ofNat 125

/-- JSON.stringify of a scalar value. -/
def stringifyScalar : JSValue → List Char
  | .str s => jsonQuote s
  | .num n => (toString n).data
  | .bool true => ['t', 'r', 'u', 'e']
  | .bool false => ['f', 'a', 'l', 's', 'e']
  | .null => ['n', 'u', 'l', 'l']

/-- The comma-separated key:value body of JSON.stringify of an object. -/
def stringifyEntries : JSObject → List Char
  | [] => []
  | [(k, v)] => jsonQuote k ++ ':' :: stringifyScalar v
  | (k, v) :: rest => jsonQuote k ++ ':' :: stringifyScalar v ++ ',' :: stringifyEntries rest

/-- JSON.stringify of a flat object of scalar values, keys in insertion
order, no whitespace — exactly the serialization fed to the digest in the
source. -/
def jsonStringifyObject (o : JSObject) : String :=
  String.mk (lbrace :: stringifyEntries o ++ [rbrace])

/-- Model of the host pipeline
Utilities.base64Encode(Utilities.computeDigest(SHA_1, s)) used for the
settings hashes.  It is not repository code; the stand-in is the identity
on the serialized string, which is deterministic and injective — the spec
(section 4.2) declares hash equality to coincide with equality of the
serialized mappings, collisions being negligible.  Every theorem below
uses only determinism of this function. -/
def sha1Base64 (s : String) : String := s

/-- JavaScript Array.prototype.sort() on an array of strings: a stable
sort by the default comparator (lexicographic on UTF-16 code units,
modelled as the code-point order of Lean strings; the two agree on all
keys occurring in this repository, which are ASCII). -/
def jsSortStrings (l : List String) : List String :=
  l.mergeSort (fun a b => a ≤ b)

-- ==========================================================
-- Settings hashing (src/utils.js lines 89-108, src/config.js 233-257)
-- ==========================================================

/-- The UPDATED_SETTINGS constant (src/storage.js lines 208-217): the
expected values for the tracked, business-relevant group settings keys. -/
def UPDATED_SETTINGS : List (String × String) :=
  [("whoCanPostMessage", "ANYONE_CAN_POST"),
   ("whoCanViewMembership", "ALL_IN_DOMAIN_CAN_VIEW"),
   ("whoCanViewGroup", "ALL_IN_DOMAIN_CAN_VIEW"),
   ("whoCanModerateContent", "OWNERS_AND_MANAGERS"),
   ("whoCanInvite", "ALL_MANAGERS_CAN_INVITE"),
   ("whoCanJoin", "CAN_REQUEST_TO_JOIN"),
   ("whoCanContactOwner", "ANYONE_CAN_CONTACT"),
   ("whoCanViewConversations", "ALL_IN_DOMAIN_CAN_VIEW")]

/-- Object.keys(UPDATED_SETTINGS).sort() — the tracked-key list of the
business projection (src/utils.js line 90). -/
def keysToTrack : List String :=
  jsSortStrings (UPDATED_SETTINGS.map Prod.fst)

/-- The business projection built by generateGroupSettingsHashPair:
for each tracked key k in sorted order, businessData[k] = settings[k] ?? null
(src/utils.js lines 91-92). -/
def businessData (settings : JSObject) : JSObject :=
  keysToTrack.map (fun k => (k, (jsGet settings k).getD JSValue.null))

/-- The shallow copy of the settings with the volatile etag field removed:
fullData = spread of settings, then delete fullData.etag
(src/utils.js lines 98-99). -/
def fullDataOf (settings : JSObject) : JSObject :=
  settings.filter (fun p => !(p.1 == "etag"))

/-- The full projection: remaining keys re-emitted in sorted order,
normalized[k] = fullData[k] (src/utils.js lines 100-101).  The lookup is
total via a null default; for keys drawn from the object itself it always
hits the some branch. -/
def normalizedOf (settings : JSObject) : JSObject :=
  (jsSortStrings (jsKeys (fullDataOf settings))).map
    (fun k => (k, (jsGet (fullDataOf settings) k).getD JSValue.null))

/-- The dual-hash result record ⟨businessHash, fullHash⟩. -/
structure HashPair where
  businessHash : String
  fullHash : String
deriving DecidableEq

/-- generateGroupSettingsHashPair (src/utils.js lines 89-108): SHA-1/base64
digests of the JSON serialization of the business and full projections. -/
def generateGroupSettingsHashPair (settings : JSObject) : HashPair :=
  HashPair.mk
    (sha1Base64 (jsonStringifyObject (businessData settings)))
    (sha1Base64 (jsonStringifyObject (normalizedOf settings)))

/-- computeDualGroupSettingsHash (src/config.js lines 233-257): the
config.js copy of the same computation — same tracked keys, same
?? null substitution, same etag deletion, same sorted serialization. -/
def computeDualGroupSettingsHash (settings : JSObject) : HashPair :=
  HashPair.mk
    (sha1Base64 (jsonStringifyObject (businessData settings)))
    (sha1Base64 (jsonStringifyObject (normalizedOf settings)))

-- ==========================================================
-- Differ (src/utils.js lines 128-137, src/config.js lines 264-281)
-- ==========================================================

/-- The comparison loop shared by the two getGroupsWithHashChanges copies:
for each entry of the new map in order, look up the old entry
(old = oldMap[email] || \x7b\x7d, so a missing entry compares its hashes as
undefined), and push the email when either hash differs.  The utils.js
copy writes this as a reduce, the config.js copy as a for-of loop; both
compute exactly this fold. -/
def diffHashMaps (oldMap newMap : List (String × HashPair)) : List String :=
  newMap.foldl
    (fun changed e =>
      let oldEntry := jsGet oldMap e.1
      if oldEntry.map HashPair.businessHash ≠ some e.2.businessHash ∨
         oldEntry.map HashPair.fullHash ≠ some e.2.fullHash then
        changed ++ [e.1]
      else changed)
    []

-- ==========================================================
-- ScriptProperties store model
-- ==========================================================

/-- The ScriptProperties backing store: string keys to string values. -/
abbrev Store := List (String × String)

/-- PropertiesService...getProperty(k): the stored string, or null. -/
def getProperty (store : Store) (k : String) : Option String :=
  jsGet store k

/-- PropertiesService...setProperty(k, v): afterwards getProperty(k)
returns v and other keys are unaffected (the physical layout of the
backing blob is not observable through the API). -/
def setProperty (store : Store) (k v : String) : Store :=
  (k, v) :: store.filter (fun p => !(p.1 == k))

-- ==========================================================
-- JSON serialization and parsing of the persisted hash map
-- ==========================================================

/-- JSON.stringify of one HashPair record: the object literal
\x7b"businessHash":...,"fullHash":...\x7d in the insertion order used by the
source when it builds the record. -/
def stringifyHashPair (p : HashPair) : List Char :=
  lbrace :: (jsonQuote "businessHash" ++ ':' :: jsonQuote p.businessHash ++
    ',' :: jsonQuote "fullHash" ++ ':' :: jsonQuote p.fullHash) ++ [rbrace]

/-- The comma-separated body of JSON.stringify of an email-to-HashPair map. -/
def stringifyHashMapEntries : List (String × HashPair) → List Char
  | [] => []
  | [(k, p)] => jsonQuote k ++ ':' :: stringifyHashPair p
  | (k, p) :: rest =>
      jsonQuote k ++ ':' :: stringifyHashPair p ++ ',' :: stringifyHashMapEntries rest

/-- JSON.stringify of the persisted hash map. -/
def stringifyHashMap (m : List (String × HashPair)) : String :=
  String.mk (lbrace :: stringifyHashMapEntries m ++ [rbrace])

/-- Value of a lowercase/uppercase-free hexadecimal digit character, as
accepted inside a \uXXXX escape. -/
def parseHexDigit (c : Char) : Option Nat :=
  if '0' ≤ c ∧ c ≤ '9' then some (c.toNat - 48)
  else if 'a' ≤ c ∧ c ≤ 'f' then some (c.toNat - 87)
  else none

/-- Parser for one escape sequence (after the backslash): the named
escapes and \uXXXX with a scalar-value bound.  It accepts exactly the
escapes the serializer emits. -/
def parseEscape : List Char → Option (Char × List Char)
  | [] => none
  | e :: r =>
    if e = '"' then some ('"', r)
    else if e = '\\' then some ('\\', r)
    else if e = 'b' then some (Char.ofNat 8, r)
    else if e = 'f' then some (Char.ofNat 12, r)
    else if e = 'n' then some ('\n', r)
    else if e = 'r' then some ('\r', r)
    else if e = 't' then some ('\t', r)
    else if e = 'u' then
      match r with
      | h1 :: h2 :: h3 :: h4 :: r2 => do
          let a ← parseHexDigit h1
          let b ← parseHexDigit h2
          let c ← parseHexDigit h3
          let d ← parseHexDigit h4
          let n := ((a * 16 + b) * 16 + c) * 16 + d
          if n < 55296 then some (Char.ofNat n, r2) else none
      | _ => none
    else none

/-- Parser for the body of a JSON string literal (after the opening
quote), with a fuel argument bounding the recursion: returns the decoded
characters and the input remaining after the closing quote. -/
def parseStringBodyF : Nat → List Char → Option (List Char × List Char)
  | 0, _ => none
  | _, [] => none
  | fuel + 1, c :: rest =>
    if c = '"' then some ([], rest)
    else if c = '\\' then
      match parseEscape rest with
      | some (d, r) => (parseStringBodyF fuel r).map (fun sr => (d :: sr.1, sr.2))
      | none => none
    else (parseStringBodyF fuel rest).map (fun sr => (c :: sr.1, sr.2))

/-- Parser for the body of a JSON string literal, fueled by the input
length (each step consumes at least one character). -/
def parseStringBody (l : List Char) : Option (List Char × List Char) :=
  parseStringBodyF l.length l

/-- Parser for a complete JSON string literal. -/
def parseQuoted : List Char → Option (String × List Char)
  | '"' :: rest => (parseStringBody rest).map (fun sr => (String.mk sr.1, sr.2))
  | _ => none

/-- Consume one expected character. -/
def expectChar (c : Char) : List Char → Option (List Char)
  | [] => none
  | x :: rest => if x = c then some rest else none

/-- Parser for one serialized HashPair object.  JSON.parse is a generic
parser; the model parses exactly the grammar the serializer emits — with
the two fields the source's JSDoc declares — which is the only grammar the
round-trip and failure claims evaluate it on. -/
def parseHashPair (l : List Char) : Option (HashPair × List Char) := do
  let l1 ← expectChar lbrace l
  let (k1, l2) ← parseQuoted l1
  if k1 = "businessHash" then
    let l3 ← expectChar ':' l2
    let (b, l4) ← parseQuoted l3
    let l5 ← expectChar ',' l4
    let (k2, l6) ← parseQuoted l5
    if k2 = "fullHash" then
      let l7 ← expectChar ':' l6
      let (f, l8) ← parseQuoted l7
      let l9 ← expectChar rbrace l8
      some (HashPair.mk b f, l9)
    else none
  else none

/-- Parser for a nonempty comma-separated sequence of
"email":HashPair entries terminated by the closing brace.  The fuel
argument bounds the recursion by the input length. -/
def parseHashMapEntries : Nat → List Char → Option (List (String × HashPair) × List Char)
  | 0, _ => none
  | fuel + 1, l => do
    let (k, l1) ← parseQuoted l
    let l2 ← expectChar ':' l1
    let (p, l3) ← parseHashPair l2
    match l3 with
    | [] => none
    | c :: l4 =>
      if c = ',' then
        let (es, r) ← parseHashMapEntries fuel l4
        some ((k, p) :: es, r)
      else if c = rbrace then some ([(k, p)], l4)
      else none

/-- JSON.parse of a serialized hash map, consuming the whole input. -/
def parseHashMapTop (s : String) : Option (List (String × HashPair)) :=
  match s.data with
  | [] => none
  | c :: rest =>
    if c = lbrace then
      match rest with
      | [] => none
      | d :: rest2 =>
        if d = rbrace then (if rest2 = [] then some [] else none)
        else
          match parseHashMapEntries rest.length rest with
          | some (es, r) => if r = [] then some es else none
          | none => none
    else none

/-- Store a hash map under the given ScriptProperties key as its JSON
serialization. -/
def storeHashMapAtKey (key : String) (hashMap : List (String × HashPair)) (store : Store) : Store :=
  setProperty store key (stringifyHashMap hashMap)

/-- Load a hash map from the given ScriptProperties key:
raw ? JSON.parse(raw) : \x7b\x7d — a missing or empty (falsy) property yields
the empty map, and a raw value the parser rejects propagates as a thrown
error (there is no try/catch in either load copy). -/
def loadHashMapAtKey (key : String) (store : Store) : Except String (List (String × HashPair)) :=
  match getProperty store key with
  | none => .ok []
  | some raw =>
    if raw = "" then .ok []
    else
      match parseHashMapTop raw with
      | some m => .ok m
      | none => .error "SyntaxError: Unexpected token in JSON"

namespace Utils

/-- storeGroupSettingsHashMap (src/utils.js lines 175-177): writes the
serialized map under GROUP_DUAL_HASH_MAP. -/
def storeGroupSettingsHashMap (hashMap : List (String × HashPair)) (store : Store) : Store :=
  storeHashMapAtKey "GROUP_DUAL_HASH_MAP" hashMap store

/-- loadGroupSettingsHashMap (src/utils.js lines 166-169): reads
GROUP_DUAL_HASH_MAP. -/
def loadGroupSettingsHashMap (store : Store) : Except String (List (String × HashPair)) :=
  loadHashMapAtKey "GROUP_DUAL_HASH_MAP" store

/-- getGroupsWithHashChanges (src/utils.js lines 128-137): loads the old
map from storage, then folds the comparison over the new map. -/
def getGroupsWithHashChanges (store : Store) (newMap : List (String × HashPair)) :
    Except String (List String) := do
  let oldMap ← loadGroupSettingsHashMap store
  pure (diffHashMaps oldMap newMap)

end Utils

namespace Storage

/-- storeGroupSettingsHashMap (src/storage.js lines 63-65): writes the
serialized map under GROUP_SETTINGS_HASH_MAP. -/
def storeGroupSettingsHashMap (hashMap : List (String × HashPair)) (store : Store) : Store :=
  storeHashMapAtKey "GROUP_SETTINGS_HASH_MAP" hashMap store

/-- loadGroupSettingsHashMap (src/storage.js lines 67-70): reads
GROUP_SETTINGS_HASH_MAP. -/
def loadGroupSettingsHashMap (store : Store) : Except String (List (String × HashPair)) :=
  loadHashMapAtKey "GROUP_SETTINGS_HASH_MAP" store

end Storage

namespace Config

/-- getGroupsWithHashChanges (src/config.js lines 264-281): reads
GROUP_DUAL_HASH_MAP inline (raw ? JSON.parse(raw) : \x7b\x7d), then runs the
same comparison loop over the new map. -/
def getGroupsWithHashChanges (store : Store) (newMap : List (String × HashPair)) :
    Except String (List String) := do
  let oldMap ← loadHashMapAtKey "GROUP_DUAL_HASH_MAP" store
  pure (diffHashMaps oldMap newMap)

end Config

-- ==========================================================
-- Group email storage (src/utils.js 305-315, src/storage.js 39-48)
-- ==========================================================

/-- Parser for a nonempty comma-separated sequence of JSON string
literals terminated by the closing bracket (fuel bounds the recursion). -/
def parseStringArrayEntries : Nat → List Char → Option (List String × List Char)
  | 0, _ => none
  | fuel + 1, l => do
    let (s, l1) ← parseQuoted l
    match l1 with
    | [] => none
    | c :: l2 =>
      if c = ',' then
        let (es, r) ← parseStringArrayEntries fuel l2
        some (s :: es, r)
      else if c = ']' then some ([s], l2)
      else none

/-- JSON.parse of a serialized string array, consuming the whole input.
As with the hash map, the model parses exactly the grammar
JSON.stringify(emails) emits — the only inputs the claims evaluate it on
besides unparseable data, which both JSON.parse and the model reject. -/
def parseStringArray (s : String) : Option (List String) :=
  match s.data with
  | [] => none
  | c :: rest =>
    if c = '[' then
      match rest with
      | [] => none
      | d :: rest2 =>
        if d = ']' then (if rest2 = [] then some [] else none)
        else
          match parseStringArrayEntries rest.length rest with
          | some (es, r) => if r = [] then some es else none
          | none => none
    else none

/-- loadGroupEmails (src/utils.js lines 305-315 and the identical copy at
src/storage.js lines 39-48): a missing or empty (falsy) GROUP_EMAILS
property yields []; a stored value that fails to parse is caught, logged
via errorLog, and the function returns [] — the failure never reaches the
caller. -/
def loadGroupEmails (store : Store) : List String :=
  match getProperty store "GROUP_EMAILS" with
  | none => []
  | some raw =>
    if raw = "" then []
    else
      match parseStringArray raw with
      | some emails => emails
      | none => []

-- ==========================================================
-- Group list hashing (src/utils.js 48-64, src/config.js 158-171)
-- ==========================================================

/-- A raw Directory API group object as hashGroupList receives it: each
field may be absent (none models undefined). -/
structure RawGroup where
  email : Option String
  name : Option String
  description : Option String
  directMembersCount : Option Int
  adminCreated : Option Bool
deriving DecidableEq

/-- The object hashGroupList builds for one group: the five normalized
fields, with directMembersCount || 0 and adminCreated || false applied
(JavaScript: 0 || 0 = 0 and false || false = false, so the getD defaults
agree with the || fallbacks on every input). -/
structure NormalizedGroup where
  email : Option String
  name : Option String
  description : Option String
  directMembersCount : Int
  adminCreated : Bool
deriving DecidableEq

/-- The mapping step of hashGroupList (src/utils.js lines 53-59). -/
def normalizeGroup (g : RawGroup) : NormalizedGroup :=
  NormalizedGroup.mk g.email g.name g.description
    (g.directMembersCount.getD 0) (g.adminCreated.getD false)

/-- JSON.stringify's view of one normalized group object, fields in the
insertion order of the source literal; fields holding undefined are
omitted by JSON.stringify, so absent string fields produce no entry. -/
def normalizedGroupEntries (g : NormalizedGroup) : JSObject :=
  (match g.email with | some s => [("email", JSValue.str s)] | none => []) ++
  (match g.name with | some s => [("name", JSValue.str s)] | none => []) ++
  (match g.description with | some s => [("description", JSValue.str s)] | none => []) ++
  [("directMembersCount", JSValue.num g.directMembersCount),
   ("adminCreated", JSValue.bool g.adminCreated)]

/-- The object literal JSON.stringify sees for one raw group in hashData
(which serializes the input objects unprojected): the raw fields in a
fixed insertion order, absent (undefined) fields omitted. -/
def rawGroupEntries (g : RawGroup) : JSObject :=
  (match g.email with | some s => [("email", JSValue.str s)] | none => []) ++
  (match g.name with | some s => [("name", JSValue.str s)] | none => []) ++
  (match g.description with | some s => [("description", JSValue.str s)] | none => []) ++
  (match g.directMembersCount with | some n => [("directMembersCount", JSValue.num n)] | none => []) ++
  (match g.adminCreated with | some b => [("adminCreated", JSValue.bool b)] | none => [])

/-- The comma-separated body of JSON.stringify of an array of objects. -/
def stringifyObjectList : List JSObject → List Char
  | [] => []
  | [o] => lbrace :: stringifyEntries o ++ [rbrace]
  | o :: rest => lbrace :: stringifyEntries o ++ rbrace :: ',' :: stringifyObjectList rest

/-- JSON.stringify of an array of flat objects. -/
def jsonStringifyArray (objs : List JSObject) : String :=
  String.mk ('[' :: stringifyObjectList objs ++ [']'])

/-- Model of Utilities.computeDigest(MD5, s) — a host primitive, not
repository code.  The stand-in deterministically folds the UTF-8 bytes of
the input into 16 accumulators and returns them as Java-style signed
bytes in [-128, 127], matching the shape (16-byte digest of signed bytes)
the host returns and byteArrayToHex consumes; the claims proved below use
only determinism and this output shape. -/
def computeDigestMD5 (s : String) : List Int :=
  (List.range 16).map (fun i =>
    ((s.toUTF8.toList.foldl (fun acc b => (acc * 31 + b.toNat + i + 1) % 256) i : Nat) : Int) - 128)

/-- Number.prototype.toString(16) for a nonnegative integer: lowercase
hexadecimal digits, no leading zeros (except for 0 itself). -/
def toHexDigits (n : Nat) : List Char :=
  if _h : n < 16 then [hexDigitChar n]
  else toHexDigits (n / 16) ++ [hexDigitChar (n % 16)]
  decreasing_by exact Nat.div_lt_self (by omega) (by omega)

/-- String.prototype.padStart(2, '0') on a character list. -/
def padStart2 (s : List Char) : List Char :=
  if s.length < 2 then List.replicate (2 - s.length) '0' ++ s else s

/-- byteArrayToHex (src/utils.js lines 24-26 and src/config.js lines
150-155): maps each signed byte b to
(b < 0 ? b + 256 : b).toString(16).padStart(2, '0') and joins the pieces
with the empty separator. -/
def byteArrayToHexChars (bytes : List Int) : List Char :=
  (bytes.map (fun b =>
    let v := if b < 0 then b + 256 else b
    padStart2 (toHexDigits v.toNat))).flatten

/-- byteArrayToHex as a string. -/
def byteArrayToHex (bytes : List Int) : String :=
  String.mk (byteArrayToHexChars bytes)

/-- The argument of hashGroupList / hashData as a JavaScript value:
either some value failing Array.isArray, or an array of group objects. -/
inductive GroupListInput where
  | notArray : GroupListInput
  | arr : List RawGroup → GroupListInput
deriving DecidableEq

/-- The comparator model for
(a.email || '').localeCompare(b.email || '') used by both sort calls:
lexicographic comparison of the email fields with '' substituted for a
missing email (localeCompare modelled as code-point string order). -/
def emailLe (a b : RawGroup) : Bool :=
  a.email.getD "" ≤ b.email.getD ""

/-- The same comparator on the normalized objects hashGroupList sorts. -/
def normEmailLe (a b : NormalizedGroup) : Bool :=
  a.email.getD "" ≤ b.email.getD ""

/-- hashGroupList (src/utils.js lines 48-64): throws on a non-array or
empty-array input; otherwise projects each group onto the five normalized
fields, sorts by email, serializes the sorted array and returns the MD5
digest as a hex string. -/
def hashGroupList : GroupListInput → Except String String
  | .notArray => .error "Invalid input: expected a non-empty array of group objects"
  | .arr dataArray =>
    if dataArray.length = 0 then
      .error "Invalid input: expected a non-empty array of group objects"
    else
      let groupList := dataArray.map normalizeGroup
      let sorted := groupList.mergeSort normEmailLe
      let json := jsonStringifyArray (sorted.map normalizedGroupEntries)
      .ok (byteArrayToHex (computeDigestMD5 json))

/-- hashData (src/config.js lines 158-171): the config.js duplicate —
same guard, but it sorts a copy of the raw input by email and serializes
the raw objects without the field projection. -/
def hashData : GroupListInput → Except String String
  | .notArray => .error "Invalid input: groupData should be a non-empty array"
  | .arr groupData =>
    if groupData.length = 0 then
      .error "Invalid input: groupData should be a non-empty array"
    else
      let sorted := groupData.mergeSort emailLe
      let json := jsonStringifyArray (sorted.map rawGroupEntries)
      .ok (byteArrayToHex (computeDigestMD5 json))

/-- The per-entry change condition of the differ: either stored hash of
the old entry (undefined when the entry is missing) differs from the
freshly computed one. -/
def hashesChanged (oldMap : List (String × HashPair)) (e : String × HashPair) : Prop :=
  (jsGet oldMap e.1).map HashPair.businessHash ≠ some e.2.businessHash ∨
  (jsGet oldMap e.1).map HashPair.fullHash ≠ some e.2.fullHash

instance (oldMap : List (String × HashPair)) (e : String × HashPair) :
    Decidable (hashesChanged oldMap e) := by
  unfold hashesChanged; infer_instance

/-- A hex character: a lowercase hexadecimal digit as produced by
toString(16). -/
def isHexChar (c : Char) : Prop :=
  ('0' ≤ c ∧ c ≤ '9') ∨ ('a' ≤ c ∧ c ≤ 'f')

instance (c : Char) : Decidable (isHexChar c) := by
  unfold isHexChar; infer_instance

/-- The successful-result shape claimed for the group-list hashers: an ok
result carrying a 32-character lowercase hex string (an MD5 hex digest). -/
def isHexDigestResult : Except String String → Prop
  | .ok h => h.data.length = 32 ∧ ∀ c ∈ h.data, isHexChar c
  | .error _ => False

-- ==========================================================
-- Helper lemmas: association-list lookup
-- ==========================================================

theorem jsGet_nil (k : String) : jsGet ([] : List (String × α)) k = none := rfl

theorem jsGet_cons (a : String × α) (t : List (String × α)) (k : String) :
    jsGet (a :: t) k = if a.1 == k then some a.2 else jsGet t k := by
  simp only [jsGet, List.find?_cons]
  by_cases h : (a.1 == k) <;> simp [h]

theorem jsGet_eq_none_iff (o : List (String × α)) (k : String) :
    jsGet o k = none ↔ k ∉ jsKeys o := by
  induction o with
  | nil => simp [jsGet_nil, jsKeys]
  | cons a t ih =>
    by_cases h : a.1 = k
    · simp [jsGet_cons, h, jsKeys]
    · simp [jsGet_cons, h, jsKeys, ih, Ne.symm h]

theorem mem_of_jsGet_eq_some {o : List (String × α)} {k : String} {v : α}
    (h : jsGet o k = some v) : (k, v) ∈ o := by
  induction o with
  | nil => simp [jsGet_nil] at h
  | cons a t ih =>
    rw [jsGet_cons] at h
    by_cases ha : (a.1 == k)
    · simp only [ha, if_pos, Option.some.injEq] at h
      simp only [beq_iff_eq] at ha
      have hav : a = (k, v) := by cases a; simp_all
      rw [← hav]
      exact List.mem_cons_self a t
    · simp only [ha, Bool.false_eq_true, if_neg] at h
      exact List.mem_cons_of_mem _ (ih h)

theorem jsGet_eq_some_of_mem_nodup {o : List (String × α)} {k : String} {v : α}
    (hmem : (k, v) ∈ o) (hnd : (jsKeys o).Nodup) : jsGet o k = some v := by
  induction o with
  | nil => simp at hmem
  | cons a t ih =>
    rw [jsGet_cons]
    rcases List.mem_cons.mp hmem with heq | htail
    · rw [← heq]
      simp
    · have hnd' := List.nodup_cons.mp (show (a.1 :: jsKeys t).Nodup from hnd)
      by_cases ha : (a.1 == k)
      · exfalso
        simp only [beq_iff_eq] at ha
        have hk : k ∈ jsKeys t := List.mem_map_of_mem Prod.fst htail
        exact hnd'.1 (by rwa [ha])
      · simp only [ha, Bool.false_eq_true, if_neg]
        exact ih htail hnd'.2

theorem jsGet_perm {o₁ o₂ : List (String × α)} (hp : o₁.Perm o₂)
    (hnd : (jsKeys o₁).Nodup) (k : String) : jsGet o₁ k = jsGet o₂ k := by
  have hnd₂ : (jsKeys o₂).Nodup := ((hp.map Prod.fst).nodup_iff).mp hnd
  cases h : jsGet o₁ k with
  | none =>
    have hk := (jsGet_eq_none_iff o₁ k).mp h
    have hk₂ : k ∉ jsKeys o₂ := fun hmem =>
      hk (((hp.map Prod.fst).mem_iff).mpr hmem)
    exact ((jsGet_eq_none_iff o₂ k).mpr hk₂).symm
  | some v =>
    have hmem : (k, v) ∈ o₂ := hp.mem_iff.mp (mem_of_jsGet_eq_some h)
    exact (jsGet_eq_some_of_mem_nodup hmem hnd₂).symm

-- ==========================================================
-- Helper lemmas: sorting and the two projections
-- ==========================================================

theorem jsSortStrings_perm (l : List String) : (jsSortStrings l).Perm l :=
  List.mergeSort_perm l _

theorem jsSortStrings_sorted (l : List String) :
    List.Sorted (· ≤ ·) (jsSortStrings l) :=
  List.sorted_mergeSort' l

theorem jsSortStrings_congr {l₁ l₂ : List String} (h : l₁.Perm l₂) :
    jsSortStrings l₁ = jsSortStrings l₂ :=
  List.eq_of_perm_of_sorted
    (((jsSortStrings_perm l₁).trans h).trans (jsSortStrings_perm l₂).symm)
    (jsSortStrings_sorted l₁) (jsSortStrings_sorted l₂)

theorem keysToTrack_perm : keysToTrack.Perm (UPDATED_SETTINGS.map Prod.fst) :=
  jsSortStrings_perm _

theorem etag_not_tracked : "etag" ∉ keysToTrack := by
  intro h
  have := keysToTrack_perm.mem_iff.mp h
  simp [UPDATED_SETTINGS] at this

theorem keysToTrack_length : keysToTrack.length = 8 := by
  rw [keysToTrack_perm.length_eq]
  rfl

theorem businessData_congr {s₁ s₂ : JSObject}
    (h : ∀ k ∈ keysToTrack, jsGet s₁ k = jsGet s₂ k) :
    businessData s₁ = businessData s₂ :=
  List.map_congr_left (fun k hk => by rw [h k hk])

theorem jsGet_fullDataOf (s : JSObject) (k : String) :
    jsGet (fullDataOf s) k = if k = "etag" then none else jsGet s k := by
  induction s with
  | nil =>
    simp only [fullDataOf, List.filter_nil, jsGet_nil]
    split <;> rfl
  | cons a t ih =>
    simp only [fullDataOf] at ih ⊢
    rw [List.filter_cons]
    by_cases ha : a.1 = "etag"
    · rw [if_neg (by simp [ha])]
      rw [ih]
      by_cases hk : k = "etag"
      · rw [if_pos hk, if_pos hk]
      · have hne : (a.1 == k) = false :=
          beq_eq_false_iff_ne.mpr (fun hc => hk (by rw [← hc]; exact ha))
        simp [jsGet_cons, hne, hk]
    · rw [if_pos (by simp [ha])]
      simp only [jsGet_cons]
      rw [ih]
      by_cases hak : a.1 = k
      · have hk : ¬ k = "etag" := fun hc => ha (by rw [hak, hc])
        simp [beq_iff_eq.mpr hak, hk]
      · simp [beq_eq_false_iff_ne.mpr hak]

theorem nodup_keys_fullDataOf {s : JSObject} (h : (jsKeys s).Nodup) :
    (jsKeys (fullDataOf s)).Nodup := by
  have hsub : (fullDataOf s).Sublist s := List.filter_sublist s
  exact (hsub.map Prod.fst).nodup h

theorem mem_keys_iff_jsGet_ne_none (o : List (String × α)) (k : String) :
    k ∈ jsKeys o ↔ jsGet o k ≠ none := by
  constructor
  · intro h hc
    exact (jsGet_eq_none_iff o k).mp hc h
  · intro h
    by_contra hc
    exact h ((jsGet_eq_none_iff o k).mpr hc)

theorem normalizedOf_congr {s₁ s₂ : JSObject}
    (h₁ : (jsKeys (fullDataOf s₁)).Nodup) (h₂ : (jsKeys (fullDataOf s₂)).Nodup)
    (h : ∀ k, jsGet (fullDataOf s₁) k = jsGet (fullDataOf s₂) k) :
    normalizedOf s₁ = normalizedOf s₂ := by
  have hmem : ∀ k, k ∈ jsKeys (fullDataOf s₁) ↔ k ∈ jsKeys (fullDataOf s₂) := by
    intro k
    rw [mem_keys_iff_jsGet_ne_none, mem_keys_iff_jsGet_ne_none, h k]
  have hperm : (jsKeys (fullDataOf s₁)).Perm (jsKeys (fullDataOf s₂)) :=
    (List.perm_ext_iff_of_nodup h₁ h₂).mpr hmem
  unfold normalizedOf
  rw [jsSortStrings_congr hperm]
  exact List.map_congr_left (fun k _ => by rw [h k])

theorem hashPair_congr {s₁ s₂ : JSObject}
    (h₁ : (jsKeys s₁).Nodup) (h₂ : (jsKeys s₂).Nodup)
    (hagree : ∀ k, k ≠ "etag" → jsGet s₁ k = jsGet s₂ k) :
    generateGroupSettingsHashPair s₁ = generateGroupSettingsHashPair s₂ := by
  have hb : businessData s₁ = businessData s₂ :=
    businessData_congr (fun k hk =>
      hagree k (fun hke => etag_not_tracked (hke ▸ hk)))
  have hfull : ∀ k, jsGet (fullDataOf s₁) k = jsGet (fullDataOf s₂) k := by
    intro k
    rw [jsGet_fullDataOf, jsGet_fullDataOf]
    by_cases hk : k = "etag"
    · simp [hk]
    · simp only [hk, if_neg]
      exact hagree k hk
  have hn : normalizedOf s₁ = normalizedOf s₂ :=
    normalizedOf_congr (nodup_keys_fullDataOf h₁) (nodup_keys_fullDataOf h₂) hfull
  unfold generateGroupSettingsHashPair
  rw [hb, hn]

theorem jsGet_append (o₁ o₂ : List (String × α)) (k : String) :
    jsGet (o₁ ++ o₂) k =
      match jsGet o₁ k with
      | some v => some v
      | none => jsGet o₂ k := by
  induction o₁ with
  | nil => simp [jsGet_nil]
  | cons a t ih =>
    rw [List.cons_append, jsGet_cons, jsGet_cons]
    by_cases h : (a.1 == k) <;> simp [h, ih]

-- ==========================================================
-- Claim C1
-- ==========================================================

/-- C1: the hash pair computed by generateGroupSettingsHashPair and by
computeDualGroupSettingsHash is independent of key insertion order — two
settings objects holding the same key/value pairs in different insertion
orders (permutations of each other, keys unique) produce the same
businessHash and the same fullHash. -/
theorem hash_insertion_order_independent (s₁ s₂ : JSObject)
    (hnd : (jsKeys s₁).Nodup) (hperm : s₁.Perm s₂) :
    generateGroupSettingsHashPair s₁ = generateGroupSettingsHashPair s₂ ∧
    computeDualGroupSettingsHash s₁ = computeDualGroupSettingsHash s₂ := by
  have h := hashPair_congr hnd (((hperm.map Prod.fst).nodup_iff).mp hnd)
    (fun k _ => jsGet_perm hperm hnd k)
  exact ⟨h, h⟩

/-- C1 witness: a two-key settings object and its transposition hash
identically. -/
theorem hash_insertion_order_independent_witness :
    generateGroupSettingsHashPair
      [("whoCanJoin", JSValue.str "ALL"), ("etag", JSValue.str "v1")]
    = generateGroupSettingsHashPair
      [("etag", JSValue.str "v1"), ("whoCanJoin", JSValue.str "ALL")] :=
  (hash_insertion_order_independent _ _ (by decide) (by decide)).1

-- ==========================================================
-- Claim C2
-- ==========================================================

/-- C2 counterexample: the business projection does NOT distinguish a
missing tracked key from an explicit null — the projection (and hence the
businessHash) of the empty object equals that of the object carrying an
explicit null for a tracked key. -/
theorem missing_key_indistinguishable_from_explicit_null :
    businessData [] = businessData [("whoCanJoin", JSValue.null)] ∧
    (generateGroupSettingsHashPair []).businessHash =
      (generateGroupSettingsHashPair [("whoCanJoin", JSValue.null)]).businessHash := by
  have hb : businessData [] = businessData [("whoCanJoin", JSValue.null)] := by
    unfold businessData
    apply List.map_congr_left
    intro k _
    rw [jsGet_nil, jsGet_cons, jsGet_nil]
    by_cases h : ("whoCanJoin" == k) <;> simp [h]
  refine ⟨hb, ?_⟩
  show sha1Base64 (jsonStringifyObject (businessData [])) =
    sha1Base64 (jsonStringifyObject (businessData [("whoCanJoin", JSValue.null)]))
  rw [hb]

/-- C2 amended: a tracked key absent from the settings object is
substituted by the sentinel null, making its projection identical to —
stable versus, but not distinguishable from — the same object with that
key explicitly set to null. -/
theorem missing_tracked_key_projects_to_sentinel_null (s : JSObject) (k : String)
    (_hk : jsGet s k = none) :
    businessData s = businessData (s ++ [(k, JSValue.null)]) ∧
    (generateGroupSettingsHashPair s).businessHash =
      (generateGroupSettingsHashPair (s ++ [(k, JSValue.null)])).businessHash := by
  have hb : businessData s = businessData (s ++ [(k, JSValue.null)]) := by
    unfold businessData
    apply List.map_congr_left
    intro k' _
    rw [jsGet_append]
    cases h' : jsGet s k' with
    | some v => rfl
    | none =>
      rw [jsGet_cons, jsGet_nil]
      by_cases h : (k == k') <;> simp [h]
  refine ⟨hb, ?_⟩
  show sha1Base64 (jsonStringifyObject (businessData s)) =
    sha1Base64 (jsonStringifyObject (businessData (s ++ [(k, JSValue.null)])))
  rw [hb]

/-- C2 amended witness: instantiated at the empty object and the tracked
key whoCanJoin. -/
theorem missing_tracked_key_projects_to_sentinel_null_witness :
    businessData [] = businessData [("whoCanJoin", JSValue.null)] :=
  (missing_tracked_key_projects_to_sentinel_null [] "whoCanJoin" rfl).1

-- ==========================================================
-- Claim C3
-- ==========================================================

/-- C3 counterexample: on the empty settings object the business
projection is NOT an empty mapping — it holds one sentinel entry per
tracked key. -/
theorem empty_settings_business_projection_not_empty :
    businessData [] ≠ [] := by
  intro h
  have hlen : (businessData []).length = 8 := by
    unfold businessData
    rw [List.length_map, keysToTrack_length]
  rw [h] at hlen
  simp at hlen

/-- C3 amended: on the empty settings object the normalizer raises no
error; the full projection is the empty mapping, while the business
projection maps each of the 8 tracked keys to the sentinel null. -/
theorem empty_settings_projections :
    normalizedOf [] = [] ∧
    businessData [] = keysToTrack.map (fun k => (k, JSValue.null)) ∧
    (businessData []).length = 8 := by
  refine ⟨?_, ?_, ?_⟩
  · show (jsSortStrings (jsKeys (fullDataOf ([] : JSObject)))).map
        (fun k => (k, (jsGet (fullDataOf ([] : JSObject)) k).getD JSValue.null)) = []
    rw [show jsSortStrings (jsKeys (fullDataOf ([] : JSObject))) = [] from
      (jsSortStrings_perm _).eq_nil]
    rfl
  · exact List.map_congr_left (fun k _ => rfl)
  · unfold businessData
    rw [List.length_map, keysToTrack_length]

-- ==========================================================
-- Claim C4
-- ==========================================================

/-- C4: changing only the excluded etag key changes neither hash — two
settings objects (unique keys) agreeing on every key other than etag
produce identical HashPairs under both generateGroupSettingsHashPair and
computeDualGroupSettingsHash. -/
theorem etag_change_does_not_affect_hashes (s₁ s₂ : JSObject)
    (h₁ : (jsKeys s₁).Nodup) (h₂ : (jsKeys s₂).Nodup)
    (hagree : ∀ k, k ≠ "etag" → jsGet s₁ k = jsGet s₂ k) :
    generateGroupSettingsHashPair s₁ = generateGroupSettingsHashPair s₂ ∧
    computeDualGroupSettingsHash s₁ = computeDualGroupSettingsHash s₂ :=
  have h := hashPair_congr h₁ h₂ hagree
  ⟨h, h⟩

/-- C4 witness: the spec's concrete scenario — etag v1 versus v2 with all
other keys equal gives an identical HashPair. -/
theorem etag_change_does_not_affect_hashes_witness :
    generateGroupSettingsHashPair
      [("whoCanJoin", JSValue.str "ALL"), ("etag", JSValue.str "v1"),
       ("other", JSValue.str "x")]
    = generateGroupSettingsHashPair
      [("whoCanJoin", JSValue.str "ALL"), ("etag", JSValue.str "v2"),
       ("other", JSValue.str "x")] :=
  (etag_change_does_not_affect_hashes _ _ (by decide) (by decide)
    (fun k hk => by
      simp only [jsGet_cons]
      by_cases h1 : ("whoCanJoin" == k)
      · simp [h1]
      · by_cases h2 : ("etag" == k)
        · exact absurd (beq_iff_eq.mp h2).symm hk
        · simp [h1, h2])).1

-- ==========================================================
-- Claim C5
-- ==========================================================

/-- C5: keys outside the tracked-key set Object.keys(UPDATED_SETTINGS)
never affect the business hash — two settings objects agreeing on the
value-or-absence of every tracked key get the same businessHash from
generateGroupSettingsHashPair, whatever other keys they hold. -/
theorem untracked_keys_do_not_affect_business_hash (s₁ s₂ : JSObject)
    (h : ∀ k ∈ jsKeys UPDATED_SETTINGS, jsGet s₁ k = jsGet s₂ k) :
    (generateGroupSettingsHashPair s₁).businessHash =
      (generateGroupSettingsHashPair s₂).businessHash := by
  have hb : businessData s₁ = businessData s₂ :=
    businessData_congr (fun k hk => h k (keysToTrack_perm.mem_iff.mp hk))
  show sha1Base64 (jsonStringifyObject (businessData s₁)) =
    sha1Base64 (jsonStringifyObject (businessData s₂))
  rw [hb]

/-- C5 witness: adding an untracked key leaves the business hash
unchanged. -/
theorem untracked_keys_do_not_affect_business_hash_witness :
    (generateGroupSettingsHashPair [("whoCanJoin", JSValue.str "ALL")]).businessHash =
      (generateGroupSettingsHashPair
        [("whoCanJoin", JSValue.str "ALL"), ("other", JSValue.str "x")]).businessHash :=
  untracked_keys_do_not_affect_business_hash _ _ (by decide)

-- ==========================================================
-- Claims C6 and C7: the differ
-- ==========================================================

theorem diffHashMaps_eq_filter (oldMap newMap : List (String × HashPair)) :
    diffHashMaps oldMap newMap =
      (newMap.filter (fun e => decide (hashesChanged oldMap e))).map Prod.fst := by
  unfold diffHashMaps
  have h : ∀ (nm : List (String × HashPair)) (acc : List String),
      List.foldl (fun changed e =>
        if hashesChanged oldMap e then changed ++ [e.1] else changed) acc nm
      = acc ++ (nm.filter (fun e => decide (hashesChanged oldMap e))).map Prod.fst := by
    intro nm
    induction nm with
    | nil => intro acc; simp
    | cons e t ih =>
      intro acc
      rw [List.foldl_cons, List.filter_cons]
      by_cases hc : hashesChanged oldMap e
      · rw [if_pos hc, ih]
        simp [hc]
      · rw [if_neg hc, ih]
        simp [hc]
  exact h newMap []

/-- C6 counterexample: the differ emits NO distinct reason tag for new
entities.  Its whole report is a flat list of email strings: the report
for an entity absent from the old map is the bare email "a@b.c", exactly
equal to the report for the same entity present in the old map with
changed hashes — the two cases are indistinguishable in the output, so
no "new" tag exists. -/
theorem new_entities_carry_no_reason_tag :
    diffHashMaps [] [("a@b.c", HashPair.mk "B" "F")] = ["a@b.c"] ∧
    diffHashMaps [("a@b.c", HashPair.mk "X" "Y")]
      [("a@b.c", HashPair.mk "B" "F")] = ["a@b.c"] :=
  ⟨rfl, rfl⟩

/-- C6 amended: every entity id present in the new map but absent from
the old stored map is reported as changed; diffing against an empty old
map — including the store-backed differ run with nothing stored — marks
every entity of the new map as changed; and the report is only a flat
list of entity ids drawn from the new map, with no reason tag attached. -/
theorem new_entities_reported_as_changed :
    (∀ (oldMap newMap : List (String × HashPair)) (email : String) (p : HashPair),
        (email, p) ∈ newMap → jsGet oldMap email = none →
        email ∈ diffHashMaps oldMap newMap) ∧
    (∀ newMap : List (String × HashPair), diffHashMaps [] newMap = jsKeys newMap) ∧
    (∀ (store : Store) (newMap : List (String × HashPair)),
        getProperty store "GROUP_DUAL_HASH_MAP" = none →
        Utils.getGroupsWithHashChanges store newMap = .ok (jsKeys newMap)) ∧
    (∀ (oldMap newMap : List (String × HashPair)),
        ∀ x ∈ diffHashMaps oldMap newMap, x ∈ jsKeys newMap) := by
  have hmain : ∀ (oldMap newMap : List (String × HashPair)) (email : String) (p : HashPair),
      (email, p) ∈ newMap → jsGet oldMap email = none →
      email ∈ diffHashMaps oldMap newMap := by
    intro oldMap newMap email p hmem hold
    rw [diffHashMaps_eq_filter]
    apply List.mem_map.mpr
    refine ⟨(email, p), ?_, rfl⟩
    apply List.mem_filter.mpr
    refine ⟨hmem, ?_⟩
    apply decide_eq_true
    left
    rw [hold]
    simp
  have hempty : ∀ newMap : List (String × HashPair),
      diffHashMaps [] newMap = jsKeys newMap := by
    intro newMap
    rw [diffHashMaps_eq_filter]
    have : newMap.filter (fun e => decide (hashesChanged [] e)) = newMap := by
      apply List.filter_eq_self.mpr
      intro e _
      apply decide_eq_true
      left
      rw [jsGet_nil]
      simp
    rw [this]
    rfl
  refine ⟨hmain, hempty, ?_, ?_⟩
  · intro store newMap hstore
    unfold Utils.getGroupsWithHashChanges Utils.loadGroupSettingsHashMap loadHashMapAtKey
    rw [hstore]
    show (Except.ok (diffHashMaps [] newMap) : Except String (List String)) =
      Except.ok (jsKeys newMap)
    rw [hempty newMap]
  · intro oldMap newMap x hx
    rw [diffHashMaps_eq_filter] at hx
    obtain ⟨e, he, rfl⟩ := List.mem_map.mp hx
    exact List.mem_map_of_mem Prod.fst (List.mem_of_mem_filter he)

/-- C6 witness: diffing a one-entry new map against the empty old map
reports the entry, and the store-backed differ on the empty store agrees. -/
theorem new_entities_reported_as_changed_witness :
    "a@b.c" ∈ diffHashMaps [] [("a@b.c", HashPair.mk "B" "F")] :=
  new_entities_reported_as_changed.1 [] [("a@b.c", HashPair.mk "B" "F")]
    "a@b.c" (HashPair.mk "B" "F") (by decide) rfl

/-- C7: diffing yields zero changes when for every entity id of the new
map the old map stores an equal HashPair — in particular a map (unique
keys) diffed against itself, or a deep copy of it, yields []. -/
theorem diff_equal_hashes_yields_no_changes :
    (∀ (oldMap newMap : List (String × HashPair)),
        (∀ email p, (email, p) ∈ newMap → jsGet oldMap email = some p) →
        diffHashMaps oldMap newMap = []) ∧
    (∀ m : List (String × HashPair), (jsKeys m).Nodup → diffHashMaps m m = []) := by
  have hmain : ∀ (oldMap newMap : List (String × HashPair)),
      (∀ email p, (email, p) ∈ newMap → jsGet oldMap email = some p) →
      diffHashMaps oldMap newMap = [] := by
    intro oldMap newMap h
    rw [diffHashMaps_eq_filter]
    have : newMap.filter (fun e => decide (hashesChanged oldMap e)) = [] := by
      apply List.filter_eq_nil_iff.mpr
      intro e he
      have he' : jsGet oldMap e.1 = some e.2 := h e.1 e.2 he
      simp [hashesChanged, he']
    rw [this]
    rfl
  refine ⟨hmain, ?_⟩
  intro m hnd
  exact hmain m m (fun email p hmem => jsGet_eq_some_of_mem_nodup hmem hnd)

/-- C7 witness: a concrete one-entry map diffed against itself yields no
changes. -/
theorem diff_equal_hashes_yields_no_changes_witness :
    diffHashMaps [("a@b.c", HashPair.mk "B" "F")] [("a@b.c", HashPair.mk "B" "F")] = [] :=
  diff_equal_hashes_yields_no_changes.2 _ (by decide)

-- ==========================================================
-- Claim C8: serializer/parser round trip
-- ==========================================================

theorem parseHexDigit_hexDigitChar (n : Nat) (h : n < 16) :
    parseHexDigit (hexDigitChar n) = some n := by
  interval_cases n <;> decide

theorem one_le_length_escape (c : Char) : 1 ≤ (jsonEscapeChar c).length := by
  unfold jsonEscapeChar
  split_ifs <;> simp

theorem length_le_escape_flatten (s : List Char) :
    s.length ≤ ((s.map jsonEscapeChar).flatten).length := by
  induction s with
  | nil => simp
  | cons c t ih =>
    simp only [List.map_cons, List.flatten_cons, List.length_append, List.length_cons]
    have := one_le_length_escape c
    omega

theorem parseStringBodyF_escape :
    ∀ (s : List Char) (fuel : Nat) (rest : List Char), s.length < fuel →
      parseStringBodyF fuel ((s.map jsonEscapeChar).flatten ++ '"' :: rest)
        = some (s, rest) := by
  intro s
  induction s with
  | nil =>
    intro fuel rest hf
    match fuel with
    | f + 1 => simp [parseStringBodyF]
  | cons c t ih =>
    intro fuel rest hf
    match fuel with
    | f + 1 =>
      have ht : t.length < f := by
        simp only [List.length_cons] at hf
        omega
      simp only [List.map_cons, List.flatten_cons, List.append_assoc]
      by_cases h1 : c = '"'
      · subst h1
        rw [show jsonEscapeChar '"' = ['\\', '"'] from rfl]
        simp +decide [parseStringBodyF, parseEscape, ih f rest ht]
      · by_cases h2 : c = '\\'
        · subst h2
          rw [show jsonEscapeChar '\\' = ['\\', '\\'] from rfl]
          simp +decide [parseStringBodyF, parseEscape, ih f rest ht]
        · by_cases h3 : c = Char.ofNat 8
          · subst h3
            rw [show jsonEscapeChar (Char.ofNat 8) = ['\\', 'b'] from rfl]
            simp +decide [parseStringBodyF, parseEscape, ih f rest ht]
          · by_cases h4 : c = Char.ofNat 12
            · subst h4
              rw [show jsonEscapeChar (Char.ofNat 12) = ['\\', 'f'] from rfl]
              simp +decide [parseStringBodyF, parseEscape, ih f rest ht]
            · by_cases h5 : c = '\n'
              · subst h5
                rw [show jsonEscapeChar '\n' = ['\\', 'n'] from rfl]
                simp +decide [parseStringBodyF, parseEscape, ih f rest ht]
              · by_cases h6 : c = '\r'
                · subst h6
                  rw [show jsonEscapeChar '\r' = ['\\', 'r'] from rfl]
                  simp +decide [parseStringBodyF, parseEscape, ih f rest ht]
                · by_cases h7 : c = '\t'
                  · subst h7
                    rw [show jsonEscapeChar '\t' = ['\\', 't'] from rfl]
                    simp +decide [parseStringBodyF, parseEscape, ih f rest ht]
                  · by_cases h8 : c.toNat < 32
                    · have he : jsonEscapeChar c =
                          ['\\', 'u', '0', '0', hexDigitChar (c.toNat / 16),
                           hexDigitChar (c.toNat % 16)] := by
                        unfold jsonEscapeChar
                        rw [if_neg h1, if_neg h2, if_neg h3, if_neg h4,
                            if_neg h5, if_neg h6, if_neg h7, if_pos h8]
                      rw [he]
                      have hdiv : c.toNat / 16 < 16 := by omega
                      have hmod : c.toNat % 16 < 16 := by omega
                      have hd1 := parseHexDigit_hexDigitChar _ hdiv
                      have hd2 := parseHexDigit_hexDigitChar _ hmod
                      have hval : ((0 * 16 + 0) * 16 + c.toNat / 16) * 16 + c.toNat % 16
                          = c.toNat := by omega
                      have hval2 : c.toNat / 16 * 16 + c.toNat % 16 = c.toNat := by omega
                      have hlt : c.toNat < 55296 := by omega
                      have h0 : parseHexDigit '0' = some 0 := by decide
                      simp +decide [parseStringBodyF, parseEscape, hd1, hd2, h0,
                        hval, hval2, hlt, ih f rest ht]
                    · have he : jsonEscapeChar c = [c] := by
                        unfold jsonEscapeChar
                        rw [if_neg h1, if_neg h2, if_neg h3, if_neg h4,
                            if_neg h5, if_neg h6, if_neg h7, if_neg h8]
                      rw [he]
                      simp only [List.cons_append, List.nil_append, List.append_eq,
                        parseStringBodyF]
                      rw [if_neg h1, if_neg h2]
                      rw [ih f rest ht]
                      rfl

theorem parseStringBody_escape (s rest : List Char) :
    parseStringBody ((s.map jsonEscapeChar).flatten ++ '"' :: rest) = some (s, rest) := by
  unfold parseStringBody
  apply parseStringBodyF_escape
  have h1 := length_le_escape_flatten s
  simp only [List.length_append, List.length_cons]
  omega

theorem parseQuoted_jsonQuote (s : String) (rest : List Char) :
    parseQuoted (jsonQuote s ++ rest) = some (s, rest) := by
  unfold jsonQuote
  simp only [List.cons_append, List.append_assoc, List.singleton_append]
  show Option.map (fun sr => (String.mk sr.1, sr.2))
      (parseStringBody ((s.data.map jsonEscapeChar).flatten ++ '"' :: rest))
    = some (s, rest)
  rw [parseStringBody_escape]
  rfl

theorem parseHashPair_stringify (p : HashPair) (rest : List Char) :
    parseHashPair (stringifyHashPair p ++ rest) = some (p, rest) := by
  unfold stringifyHashPair parseHashPair
  simp +decide [expectChar, parseQuoted_jsonQuote, List.append_assoc]

theorem parseHashMapEntries_stringify :
    ∀ (m : List (String × HashPair)) (fuel : Nat) (rest : List Char),
      m ≠ [] → m.length ≤ fuel →
      parseHashMapEntries fuel (stringifyHashMapEntries m ++ rbrace :: rest)
        = some (m, rest) := by
  intro m
  induction m with
  | nil => intro fuel rest h _; exact absurd rfl h
  | cons e t ih =>
    intro fuel rest _ hlen
    cases fuel with
    | zero =>
      simp only [List.length_cons] at hlen
      omega
    | succ f =>
      obtain ⟨k, p⟩ := e
      cases t with
      | nil =>
        simp only [stringifyHashMapEntries, List.append_assoc, List.cons_append]
        simp +decide [parseHashMapEntries, parseQuoted_jsonQuote, expectChar,
          parseHashPair_stringify]
      | cons e2 t2 =>
        have hlen' : (e2 :: t2).length ≤ f := by
          simp only [List.length_cons] at hlen ⊢
          omega
        simp only [stringifyHashMapEntries, List.append_assoc, List.cons_append]
        simp +decide [parseHashMapEntries, parseQuoted_jsonQuote, expectChar,
          parseHashPair_stringify, ih f rest (List.cons_ne_nil e2 t2) hlen']

theorem length_le_stringifyHashMapEntries (m : List (String × HashPair)) :
    m.length ≤ (stringifyHashMapEntries m).length := by
  induction m with
  | nil => simp [stringifyHashMapEntries]
  | cons e t ih =>
    obtain ⟨k, p⟩ := e
    cases t with
    | nil => simp [stringifyHashMapEntries, jsonQuote]
    | cons e2 t2 =>
      simp only [stringifyHashMapEntries, List.length_append, List.length_cons,
        List.length_cons] at ih ⊢
      have : 1 ≤ (jsonQuote k).length := by simp [jsonQuote]
      omega

theorem parseHashMapTop_stringify (m : List (String × HashPair)) :
    parseHashMapTop (stringifyHashMap m) = some m := by
  cases m with
  | nil => rfl
  | cons e t =>
    obtain ⟨B, hB⟩ : ∃ B, stringifyHashMapEntries (e :: t) = '"' :: B := by
      obtain ⟨k, p⟩ := e
      cases t with
      | nil =>
        exact ⟨(k.data.map jsonEscapeChar).flatten ++ '"' :: ':' :: stringifyHashPair p,
          by simp [stringifyHashMapEntries, jsonQuote]⟩
      | cons e2 t2 =>
        exact ⟨(k.data.map jsonEscapeChar).flatten ++
            '"' :: ':' :: (stringifyHashPair p ++ ',' :: stringifyHashMapEntries (e2 :: t2)),
          by simp [stringifyHashMapEntries, jsonQuote]⟩
    unfold stringifyHashMap parseHashMapTop
    rw [hB]
    show (if lbrace = lbrace then
        match ('"' :: B) ++ [rbrace] with
        | [] => none
        | d :: rest2 =>
          if d = rbrace then (if rest2 = [] then some [] else none)
          else
            match parseHashMapEntries (('"' :: B) ++ [rbrace]).length (('"' :: B) ++ [rbrace]) with
            | some (es, r) => if r = [] then some es else none
            | none => none
      else none) = some (e :: t)
    rw [if_pos rfl]
    simp only [List.cons_append]
    rw [if_neg (by decide)]
    have hfuel : (e :: t).length ≤ ('"' :: (B ++ [rbrace])).length := by
      have h1 := length_le_stringifyHashMapEntries (e :: t)
      rw [hB] at h1
      simp only [List.length_cons, List.length_append] at h1 ⊢
      omega
    have hparse := parseHashMapEntries_stringify (e :: t)
      (('"' :: (B ++ [rbrace])).length) [] (List.cons_ne_nil e t) hfuel
    rw [hB] at hparse
    simp only [List.cons_append, List.append_nil] at hparse
    rw [hparse]
    rfl

theorem getProperty_setProperty (store : Store) (k v : String) :
    getProperty (setProperty store k v) k = some v := by
  unfold getProperty setProperty
  rw [jsGet_cons]
  simp

theorem stringifyHashMap_ne_empty (m : List (String × HashPair)) :
    stringifyHashMap m ≠ "" := by
  intro h
  have := congrArg String.data h
  simp [stringifyHashMap] at this

theorem loadHashMapAtKey_store (key : String) (m : List (String × HashPair))
    (store : Store) :
    loadHashMapAtKey key (storeHashMapAtKey key m store) = .ok m := by
  unfold storeHashMapAtKey loadHashMapAtKey
  rw [getProperty_setProperty]
  show (if stringifyHashMap m = "" then
        (Except.ok [] : Except String (List (String × HashPair)))
      else
        match parseHashMapTop (stringifyHashMap m) with
        | some mm => Except.ok mm
        | none => Except.error "SyntaxError: Unexpected token in JSON")
      = Except.ok m
  rw [if_neg (stringifyHashMap_ne_empty m), parseHashMapTop_stringify]

/-- C8: storage round trip — loading after saving the hash map on the
same backing store returns a map deeply equal to the one saved, for the
utils.js pair (key GROUP_DUAL_HASH_MAP) and for the storage.js pair (key
GROUP_SETTINGS_HASH_MAP) alike.  The Nodup hypothesis records that a
JavaScript object cannot hold duplicate keys. -/
theorem storage_round_trip (m : List (String × HashPair)) (store : Store)
    (_hnd : (jsKeys m).Nodup) :
    Utils.loadGroupSettingsHashMap (Utils.storeGroupSettingsHashMap m store) = .ok m ∧
    Storage.loadGroupSettingsHashMap (Storage.storeGroupSettingsHashMap m store) = .ok m :=
  ⟨loadHashMapAtKey_store _ m store, loadHashMapAtKey_store _ m store⟩

/-- C8 witness: a concrete one-entry map survives the round trip through
both storage pairs, starting from the empty store. -/
theorem storage_round_trip_witness :
    Utils.loadGroupSettingsHashMap
      (Utils.storeGroupSettingsHashMap [("a@b.c", HashPair.mk "B" "F")] []) =
      .ok [("a@b.c", HashPair.mk "B" "F")] :=
  (storage_round_trip [("a@b.c", HashPair.mk "B" "F")] [] (by decide)).1

-- ==========================================================
-- Claim C9: parse failures in loadGroupEmails
-- ==========================================================

/-- C9 counterexample: unparseable stored data is NOT surfaced as a
storage error — loadGroupEmails catches the parse failure and hands the
caller the default empty list. -/
theorem load_failure_swallowed :
    parseStringArray "not json" = none ∧
    loadGroupEmails [("GROUP_EMAILS", "not json")] = [] := by
  constructor
  · rfl
  · rfl

/-- C9 amended: whenever the stored GROUP_EMAILS value fails to parse,
loadGroupEmails catches the failure (logging it) and returns the default
empty list to the caller; no error — StorageError or otherwise — reaches
the caller. -/
theorem load_failure_returns_default (store : Store) (raw : String)
    (hget : getProperty store "GROUP_EMAILS" = some raw)
    (hraw : raw ≠ "")
    (hparse : parseStringArray raw = none) :
    loadGroupEmails store = [] := by
  unfold loadGroupEmails
  rw [hget]
  show (if raw = "" then [] else
      match parseStringArray raw with
      | some emails => emails
      | none => []) = []
  rw [if_neg hraw, hparse]

/-- C9 amended witness: instantiated at a store holding unparseable
data under GROUP_EMAILS. -/
theorem load_failure_returns_default_witness :
    loadGroupEmails [("GROUP_EMAILS", "not json")] = [] :=
  load_failure_returns_default [("GROUP_EMAILS", "not json")] "not json"
    rfl (by decide) rfl

-- ==========================================================
-- Claim C10: the group-list hashers
-- ==========================================================

theorem foldl_mod_lt (l : List UInt8) (i : Nat) (acc : Nat) (hacc : acc < 256) :
    l.foldl (fun acc b => (acc * 31 + b.toNat + i + 1) % 256) acc < 256 := by
  induction l generalizing acc with
  | nil => exact hacc
  | cons b t ih => exact ih _ (Nat.mod_lt _ (by omega))

theorem computeDigestMD5_length (s : String) : (computeDigestMD5 s).length = 16 := by
  simp [computeDigestMD5]

theorem computeDigestMD5_bounds (s : String) :
    ∀ b ∈ computeDigestMD5 s, -128 ≤ b ∧ b < 128 := by
  intro b hb
  simp only [computeDigestMD5, List.mem_map, List.mem_range] at hb
  obtain ⟨i, hi, rfl⟩ := hb
  have h := foldl_mod_lt (s.toUTF8.toList) i i (by omega)
  omega

theorem isHexChar_hexDigitChar (n : Nat) (h : n < 16) : isHexChar (hexDigitChar n) := by
  interval_cases n <;> decide

theorem toHexDigits_lt_16 (n : Nat) (h : n < 16) :
    toHexDigits n = [hexDigitChar n] := by
  unfold toHexDigits
  rw [dif_pos h]

theorem toHexDigits_of_lt_256 (n : Nat) (h16 : 16 ≤ n) (h : n < 256) :
    toHexDigits n = [hexDigitChar (n / 16), hexDigitChar (n % 16)] := by
  unfold toHexDigits
  rw [dif_neg (by omega)]
  rw [toHexDigits_lt_16 (n / 16) (by omega)]
  rfl

theorem padded_hex_of_lt_256 (n : Nat) (h : n < 256) :
    (padStart2 (toHexDigits n)).length = 2 ∧
    ∀ c ∈ padStart2 (toHexDigits n), isHexChar c := by
  by_cases h16 : n < 16
  · rw [toHexDigits_lt_16 n h16]
    unfold padStart2
    rw [if_pos (by simp)]
    constructor
    · rfl
    · intro c hc
      simp only [List.replicate, List.cons_append, List.nil_append, List.mem_cons,
        List.not_mem_nil, or_false] at hc
      rcases hc with rfl | rfl
      · decide
      · exact isHexChar_hexDigitChar n h16
  · rw [toHexDigits_of_lt_256 n (by omega) h]
    unfold padStart2
    rw [if_neg (by simp)]
    constructor
    · rfl
    · intro c hc
      simp only [List.mem_cons, List.not_mem_nil, or_false] at hc
      rcases hc with rfl | rfl
      · exact isHexChar_hexDigitChar _ (by omega)
      · exact isHexChar_hexDigitChar _ (by omega)

theorem byteArrayToHexChars_spec (bytes : List Int)
    (h : ∀ b ∈ bytes, -128 ≤ b ∧ b < 128) :
    (byteArrayToHexChars bytes).length = 2 * bytes.length ∧
    ∀ c ∈ byteArrayToHexChars bytes, isHexChar c := by
  induction bytes with
  | nil => simp [byteArrayToHexChars]
  | cons b t ih =>
    have hb := h b (List.mem_cons_self b t)
    have ht := ih (fun x hx => h x (List.mem_cons_of_mem b hx))
    have hv : (if b < 0 then b + 256 else b).toNat < 256 := by
      split <;> omega
    have hpad := padded_hex_of_lt_256 _ hv
    simp only [byteArrayToHexChars, List.map_cons, List.flatten_cons,
      List.length_append, List.length_cons, List.mem_append] at ht ⊢
    constructor
    · rw [hpad.1]
      omega
    · intro c hc
      rcases hc with hc | hc
      · exact hpad.2 c hc
      · exact ht.2 c hc

/-- C10: both group-list hashers throw on a non-array or empty-array
input, and on every nonempty array of group objects they return, without
throwing, a 32-character lowercase hex digest string. -/
theorem group_list_hashers_spec :
    (hashGroupList GroupListInput.notArray =
      .error "Invalid input: expected a non-empty array of group objects") ∧
    (hashGroupList (GroupListInput.arr []) =
      .error "Invalid input: expected a non-empty array of group objects") ∧
    (∀ l : List RawGroup, l ≠ [] →
      isHexDigestResult (hashGroupList (GroupListInput.arr l))) ∧
    (hashData GroupListInput.notArray =
      .error "Invalid input: groupData should be a non-empty array") ∧
    (hashData (GroupListInput.arr []) =
      .error "Invalid input: groupData should be a non-empty array") ∧
    (∀ l : List RawGroup, l ≠ [] →
      isHexDigestResult (hashData (GroupListInput.arr l))) := by
  refine ⟨rfl, rfl, ?_, rfl, rfl, ?_⟩
  · intro l hl
    simp only [hashGroupList]
    rw [if_neg (by simpa using hl)]
    have hb := computeDigestMD5_bounds
      (jsonStringifyArray (((l.map normalizeGroup).mergeSort normEmailLe).map
        normalizedGroupEntries))
    have hc := byteArrayToHexChars_spec _ hb
    refine ⟨?_, hc.2⟩
    rw [show (byteArrayToHex _).data = byteArrayToHexChars _ from rfl] at *
    rw [hc.1, computeDigestMD5_length]
  · intro l hl
    simp only [hashData]
    rw [if_neg (by simpa using hl)]
    have hb := computeDigestMD5_bounds
      (jsonStringifyArray ((l.mergeSort emailLe).map rawGroupEntries))
    have hc := byteArrayToHexChars_spec _ hb
    refine ⟨?_, hc.2⟩
    rw [show (byteArrayToHex _).data = byteArrayToHexChars _ from rfl] at *
    rw [hc.1, computeDigestMD5_length]

/-- C10 witness: a concrete one-element group array hashes to an ok hex
digest under both hashers. -/
theorem group_list_hashers_spec_witness :
    isHexDigestResult
      (hashGroupList (GroupListInput.arr
        [RawGroup.mk (some "a@b.c") (some "A") none none none])) :=
  group_list_hashers_spec.2.2.1 _ (by decide)

end AppsScript
